import Mathlib

/-!
Verification of the conversation context manager of the KnowSphere
repository (file `conversationManager.ts`, class `ConversationManager`).

The TypeScript class is embedded shallowly:
* the `Map<string, Conversation>` store becomes `Store := String → Option Conversation`;
* `Date.now()` and the random message-id generator become explicit
  parameters (`now : Int`, `msgId : String`) of the operations that use them;
* methods that mutate the store return the updated store explicitly;
* JavaScript `Array.prototype.slice(-n)` is modelled by `sliceNeg`
  (note `slice(-0) = slice(0)` returns the whole array);
* `String.prototype.includes` is modelled by `containsSubstring` on
  character lists; `toLowerCase` by mapping `Char.toLower` (the inputs of
  interest are ASCII, where the two agree).
-/

namespace ConvMgr

/-- The three message roles of the `Message` interface. -/
inductive Role where
  | user
  | assistant
  | system
deriving DecidableEq, Repr

/-- Optional message metadata (`searchResults`, `responseTime`, `modelUsed`). -/
structure Metadata where
  searchResults : Option Int := none
  responseTime : Option Int := none
  modelUsed : Option String := none
deriving DecidableEq, Repr

/-- The `Message` interface: id, role, content, timestamp, optional metadata. -/
structure Message where
  id : String
  role : Role
  content : String
  timestamp : Int
  metadata : Option Metadata := none
deriving DecidableEq, Repr

/-- The `context` field of a `Conversation`. -/
structure Context where
  currentTopic : Option String := none
  entities : List String := []
  lastSearchQuery : Option String := none
  searchResultsSummary : Option String := none
deriving DecidableEq, Repr

/-- The `Conversation` interface. Timestamps are milliseconds as `Int`. -/
structure Conversation where
  id : String
  messages : List Message
  context : Context
  createdAt : Int
  updatedAt : Int
deriving DecidableEq, Repr

/-- The private `Map<string, Conversation>` of the manager, as a function. -/
def Store := String → Option Conversation

/-- The store of a freshly constructed `ConversationManager`: empty map. -/
def emptyStore : Store := fun _ => none

/-- `MAX_HISTORY = 10` — keep last 10 messages for context. -/
def MAX_HISTORY : Nat := 10

/-- JavaScript `arr.slice(-n)` for a non-negative count `n`:
`slice(-0)` is `slice(0)` (the whole array); for `n > 0` it keeps the
last `n` elements (all of them when `n ≥ length`). -/
def sliceNeg (l : List α) (n : Nat) : List α :=
  if n = 0 then l else l.drop (l.length - n)

/-- The last `n` elements of a list (`drop (length - n)`); used by the
spec-side formalisation where "the most recent `n`" is meant literally. -/
def takeLast (n : Nat) (l : List α) : List α :=
  l.drop (l.length - n)

/-- `pre` is an initial segment of `s` (character-list version of
JavaScript `String.prototype.startsWith`). -/
def startsWithL : List Char → List Char → Bool
  | [], _ => true
  | _ :: _, [] => false
  | a :: as, b :: bs => a == b && startsWithL as bs

/-- `sub` occurs contiguously inside `s` (character-list version of
JavaScript `String.prototype.includes`). -/
def containsSubstring (sub : List Char) : List Char → Bool
  | [] => sub.isEmpty
  | c :: t => startsWithL sub (c :: t) || containsSubstring sub t

/-- JavaScript `String.prototype.toLowerCase`, restricted to the
per-character lowering that agrees with it on ASCII. -/
def toLowerStr (s : String) : String :=
  String.mk (s.data.map Char.toLower)

/-- A `\w` word character: ASCII letter, digit, or underscore. -/
def isWordChar (c : Char) : Bool :=
  c.isAlphanum || c == '_'

/-- One step of `.replace(/[^\w\s]/g, ' ')`: any character that is neither
a word character nor whitespace becomes a space. -/
def normalizeChar (c : Char) : Char :=
  if isWordChar c || c.isWhitespace then c else ' '

/-- Split a character list on whitespace runs, accumulating the current
token in reverse; empty tokens are not produced (the JavaScript
`split(/\s+/)` can produce empty edge tokens, but those are removed by the
`length > 3` filter downstream, so the keyword results coincide). -/
def wordsAux (cur : List Char) : List Char → List (List Char)
  | [] => if cur.isEmpty then [] else [cur.reverse]
  | c :: rest =>
      if c.isWhitespace then
        if cur.isEmpty then wordsAux [] rest
        else cur.reverse :: wordsAux [] rest
      else wordsAux (c :: cur) rest

/-- Split a string into its whitespace-separated tokens. -/
def splitWords (s : String) : List String :=
  (wordsAux [] s.data).map String.mk

/-- The `commonWords` stop-word set of `extractKeywords`. -/
def commonWords : List String :=
  ["the", "a", "an", "and", "or", "but", "in", "on", "at", "to", "for",
   "of", "with", "by", "from", "about", "as", "is", "was", "are", "were",
   "been", "be", "have", "has", "had", "do", "does", "did", "will", "would",
   "could", "should", "may", "might", "can", "what", "where", "when", "how",
   "why", "who", "which", "this", "that", "these", "those", "tell", "me"]

/-- Deduplicate keeping the first occurrence of each element, as
`Array.from(new Set(words))` does (JavaScript `Set` iterates in insertion
order). -/
def dedupFirst (seen : List String) : List String → List String
  | [] => []
  | x :: xs =>
      if seen.contains x then dedupFirst seen xs
      else x :: dedupFirst (x :: seen) xs

/-- `extractKeywords`: lower-case, replace non-word non-space characters
by spaces, split on whitespace, keep tokens of length `> 3` not in the
stop-word list, deduplicate keeping first occurrences. -/
def extractKeywords (text : String) : List String :=
  let lowered := toLowerStr text
  let replaced := String.mk (lowered.data.map normalizeChar)
  let words := (splitWords replaced).filter
    (fun w => w.length > 3 && !(commonWords.contains w))
  dedupFirst [] words

/-- `identifyTopic`: the first extracted keyword, if any. -/
def identifyTopic (text : String) : Option String :=
  (extractKeywords text).head?

/-- One step of the entity-update loop of `updateContext`: push the
keyword unless it is already present. -/
def addEntity (entities : List String) (k : String) : List String :=
  if entities.contains k then entities else entities ++ [k]

/-- `updateContext`: merge the content's keywords into `entities`
(deduplicating), trim `entities` to the most recent 20, and, for a user
message, recompute `currentTopic` from the content. -/
def updateContext (conv : Conversation) (content : String) (role : Role) :
    Conversation :=
  let keywords := extractKeywords content
  let entities1 := keywords.foldl addEntity conv.context.entities
  let entities2 :=
    if entities1.length > 20 then entities1.drop (entities1.length - 20)
    else entities1
  let topic :=
    if role = Role.user then identifyTopic content
    else conv.context.currentTopic
  { conv with context := { conv.context with
      entities := entities2, currentTopic := topic } }

/-- `createConversation`: a fresh empty conversation stored under its id. -/
def createConversation (cid : String) (now : Int) : Conversation :=
  { id := cid
    messages := []
    context := { currentTopic := none, entities := [],
                 lastSearchQuery := none, searchResultsSummary := none }
    createdAt := now
    updatedAt := now }

/-- Insert (or overwrite) a conversation in the store. -/
def Store.insert (store : Store) (cid : String) (conv : Conversation) :
    Store :=
  fun i => if i = cid then some conv else store i

/-- `getConversation`: get-or-create. Returns the conversation together
with the store (updated when the id was absent). -/
def getConversation (store : Store) (cid : String) (now : Int) :
    Conversation × Store :=
  match store cid with
  | some conv => (conv, store)
  | none =>
      let conv := createConversation cid now
      (conv, store.insert cid conv)

/-- `addMessage`: get-or-create the conversation, append a fresh message,
refresh `updatedAt`, trim `messages` to the last `MAX_HISTORY * 2`, then
run `updateContext` with the new content and role. Returns the message
and the updated store. -/
def addMessage (store : Store) (cid : String) (role : Role)
    (content : String) (metadata : Option Metadata) (msgId : String)
    (now : Int) : Message × Store :=
  let gc := getConversation store cid now
  let conv := gc.1
  let store1 := gc.2
  let msg : Message :=
    { id := msgId, role := role, content := content,
      timestamp := now, metadata := metadata }
  let msgs1 := conv.messages ++ [msg]
  let msgs2 :=
    if msgs1.length > MAX_HISTORY * 2 then
      msgs1.drop (msgs1.length - MAX_HISTORY * 2)
    else msgs1
  let conv1 := { conv with messages := msgs2, updatedAt := now }
  let conv2 := updateContext conv1 content role
  (msg, store1.insert cid conv2)

/-- The role label used by `getContextForAI`:
`msg.role === 'user' ? 'User' : 'Assistant'`. -/
def roleLabel (r : Role) : String :=
  if r = Role.user then "User" else "Assistant"

/-- The transcript block built by `getContextForAI` from an already
selected list of messages: header, one line per message, optional
`Current Topic` line, optional `Referenced Entities` line. -/
def renderBlock (recent : List Message) (conv : Conversation) : String :=
  let body := recent.foldl
    (fun acc m => acc ++ roleLabel m.role ++ ": " ++ m.content ++ "\n")
    "\n\nConversation History:\n"
  let body1 :=
    match conv.context.currentTopic with
    | some t => body ++ "\nCurrent Topic: " ++ t ++ "\n"
    | none => body
  if conv.context.entities.length > 0 then
    body1 ++ "Referenced Entities: " ++
      String.intercalate ", " conv.context.entities ++ "\n"
  else body1

/-- `getContextForAI`: get-or-create, take `messages.slice(-maxMessages)`,
return `""` when that slice is empty, otherwise the rendered block.
Returns the string and the (possibly updated) store. -/
def getContextForAI (store : Store) (cid : String) (maxMessages : Nat)
    (now : Int) : String × Store :=
  let gc := getConversation store cid now
  let conv := gc.1
  let recent := sliceNeg conv.messages maxMessages
  if recent.length = 0 then ("", gc.2)
  else (renderBlock recent conv, gc.2)

/-- The default `maxMessages` of `getContextForAI`. -/
def defaultMaxMessages : Nat := 5

/-- The follow-up indicator phrases of `isFollowUpQuestion`. -/
def followUpIndicators : List String :=
  ["what about", "how about", "and", "also", "more", "another",
   "it", "its", "their", "them", "this", "that", "these", "those",
   "compared to", "versus", "vs", "difference between"]

/-- `isFollowUpQuestion`: false when the id is absent (plain `Map.get`,
no creation) or the conversation has fewer than 2 messages; otherwise
true iff the lower-cased query contains one of the indicator phrases as
a raw substring. -/
def isFollowUpQuestion (store : Store) (cid : String) (query : String) :
    Bool :=
  match store cid with
  | none => false
  | some conv =>
      if conv.messages.length < 2 then false
      else
        let lowerQuery := toLowerStr query
        followUpIndicators.any
          (fun ind => containsSubstring ind.data lowerQuery.data)

/-- `enhanceQueryWithContext`: get-or-create, return the query unchanged
for a non-follow-up; otherwise append the current topic (when set) and
the last five entities, each preceded by a single space. Returns the
string and the (possibly updated) store. -/
def enhanceQueryWithContext (store : Store) (cid : String)
    (query : String) (now : Int) : String × Store :=
  let gc := getConversation store cid now
  let conv := gc.1
  let store1 := gc.2
  if !(isFollowUpQuestion store1 cid query) then (query, store1)
  else
    let enhanced1 :=
      match conv.context.currentTopic with
      | some t => query ++ " " ++ t
      | none => query
    let recentEntities := conv.context.entities.drop
      (conv.context.entities.length - 5)
    let enhanced2 :=
      if recentEntities.length > 0 then
        enhanced1 ++ " " ++ String.intercalate " " recentEntities
      else enhanced1
    (enhanced2, store1)

/-- The default `maxAge` of `clearOldConversations`:
`24 * 60 * 60 * 1000` milliseconds. -/
def defaultMaxAge : Int := 24 * 60 * 60 * 1000

/-- `clearOldConversations`: delete every conversation whose age
`now - updatedAt` exceeds `maxAge`; keep the rest untouched. -/
def clearOldConversations (store : Store) (now : Int) (maxAge : Int) :
    Store :=
  fun cid =>
    match store cid with
    | none => none
    | some conv =>
        if now - conv.updatedAt > maxAge then none else some conv

/-! ### Operation sequences

The manager is a long-lived singleton; claims about "arbitrarily many
calls" are phrased over explicit lists of API calls folded over the
store, starting from the empty store of a fresh manager. -/

/-- The arguments of one `addMessage` call (`now` and `msgId` stand for
the call-time `Date.now()` and generated message id). -/
structure AddCall where
  role : Role
  content : String
  metadata : Option Metadata
  msgId : String
  now : Int
deriving DecidableEq, Repr

/-- The message that `addMessage` constructs for a given call. -/
def mkMessage (a : AddCall) : Message :=
  { id := a.msgId, role := a.role, content := a.content,
    timestamp := a.now, metadata := a.metadata }

/-- Fold a sequence of `addMessage` calls on one conversation id. -/
def runAdds (cid : String) (store : Store) (calls : List AddCall) : Store :=
  calls.foldl
    (fun s a => (addMessage s cid a.role a.content a.metadata a.msgId a.now).2)
    store

/-- One API call of the manager, with its call-time data. -/
inductive Op where
  | addMsg (cid : String) (role : Role) (content : String)
      (metadata : Option Metadata) (msgId : String) (now : Int)
  | getConv (cid : String) (now : Int)
  | getCtx (cid : String) (maxMessages : Nat) (now : Int)
  | enhance (cid : String) (query : String) (now : Int)
  | isFollowUp (cid : String) (query : String)
  | clearOld (now : Int) (maxAge : Int)

/-- The effect of one API call on the store. `isFollowUpQuestion` reads
the map with a plain `get` and performs no write, so its effect is the
identity. -/
def applyOp (store : Store) : Op → Store
  | Op.addMsg cid role content md msgId now =>
      (addMessage store cid role content md msgId now).2
  | Op.getConv cid now => (getConversation store cid now).2
  | Op.getCtx cid n now => (getContextForAI store cid n now).2
  | Op.enhance cid q now => (enhanceQueryWithContext store cid q now).2
  | Op.isFollowUp _ _ => store
  | Op.clearOld now maxAge => clearOldConversations store now maxAge

/-- The store after a sequence of API calls on a fresh manager. -/
def runOps (ops : List Op) : Store :=
  ops.foldl applyOp emptyStore

/-! ### Spec-side formalisation for `getContextForAI`

`specContextBlock` renders the block exactly as the claim describes it:
empty iff there are zero stored messages, and otherwise one line for each
of the most recent `maxMessages` messages (literally: the last
`maxMessages` elements, so none for `maxMessages = 0`), followed by the
optional topic and entity lines. It is compared against the source-side
`getContextForAI`, which uses `slice(-maxMessages)`. -/

/-- The transcript block as the specification describes it. -/
def specContextBlock (conv : Conversation) (maxMessages : Nat) : String :=
  if conv.messages.length = 0 then ""
  else renderBlock (takeLast maxMessages conv.messages) conv

/-! ### Concrete data used by witnesses and counterexamples -/

/-- The worked example query of the specification. -/
def exampleQuery : String :=
  "What is the difference between supervised and unsupervised learning?"

/-- A first stored user message. -/
def demoMsg1 : Message :=
  { id := "m1", role := Role.user,
    content := "Tell me about Yellowstone National Park", timestamp := 0 }

/-- A stored assistant reply. -/
def demoMsg2 : Message :=
  { id := "m2", role := Role.assistant,
    content := "Yellowstone is a large national park", timestamp := 1 }

/-- A conversation with a single stored message and empty context. -/
def demoConv1 : Conversation :=
  { id := "c",
    messages := [{ id := "m1", role := Role.user, content := "hello",
                   timestamp := 0 }],
    context := {}, createdAt := 0, updatedAt := 0 }

/-- A store containing only `demoConv1` under id `"c"`. -/
def demoStore1 : Store := Store.insert emptyStore "c" demoConv1

/-- A conversation with two stored messages, a topic and three entities. -/
def demoConv2 : Conversation :=
  { id := "c", messages := [demoMsg1, demoMsg2],
    context := { currentTopic := some "yellowstone",
                 entities := ["yellowstone", "national", "park"] },
    createdAt := 0, updatedAt := 1 }

/-- A store containing only `demoConv2` under id `"c"`. -/
def demoStore2 : Store := Store.insert emptyStore "c" demoConv2

/-- Twenty-five one-at-a-time `addMessage` calls with ids `m1` … `m25`. -/
def calls25 : List AddCall :=
  (List.range 25).map
    (fun i => { role := Role.user, content := "", metadata := none,
                msgId := "m" ++ Nat.repr (i + 1), now := 0 })

/-- A one-call operation sequence used to witness the entity invariant. -/
def demoOps : List Op :=
  [Op.addMsg "c" Role.user "alpha beta gamma delta" none "m1" 0]

/-- The conversation stored under `"c"` after running `demoOps`. -/
def demoOpsResult : Conversation :=
  { id := "c",
    messages := [{ id := "m1", role := Role.user,
                   content := "alpha beta gamma delta", timestamp := 0,
                   metadata := none }],
    context := { currentTopic := some "alpha",
                 entities := ["alpha", "beta", "gamma", "delta"],
                 lastSearchQuery := none, searchResultsSummary := none },
    createdAt := 0, updatedAt := 0 }

/-- Well-formedness of the derived entity state: every stored
conversation has duplicate-free entities, at most 20 of them. -/
def EntitiesOK (store : Store) : Prop :=
  ∀ cid c, store cid = some c →
    c.context.entities.Nodup ∧ c.context.entities.length ≤ 20

/-! ### Helper lemmas -/

theorem store_insert_self (store : Store) (cid : String) (c : Conversation) :
    store.insert cid c cid = some c := by
  simp [Store.insert]

theorem store_insert_ne (store : Store) (cid i : String) (c : Conversation)
    (h : i ≠ cid) : store.insert cid c i = store i := by
  simp [Store.insert, h]

theorem getConversation_of_some {store : Store} {cid : String}
    {c : Conversation} (now : Int) (h : store cid = some c) :
    getConversation store cid now = (c, store) := by
  unfold getConversation
  rw [h]

theorem getConversation_of_none {store : Store} {cid : String} (now : Int)
    (h : store cid = none) :
    getConversation store cid now
      = (createConversation cid now,
         store.insert cid (createConversation cid now)) := by
  unfold getConversation
  rw [h]

theorem takeLast_length (n : Nat) (l : List α) :
    (takeLast n l).length = min n l.length := by
  unfold takeLast
  rw [List.length_drop]
  omega

theorem takeLast_eq_rtake (n : Nat) (l : List α) :
    takeLast n l = l.rtake n := rfl

theorem trim_eq_takeLast (n : Nat) (l : List α) :
    (if l.length > n then l.drop (l.length - n) else l) = takeLast n l := by
  unfold takeLast
  split
  · rfl
  · next h =>
      have h0 : l.length - n = 0 := by omega
      rw [h0, List.drop_zero]

theorem take_append_take (n : Nat) (X Y : List α) :
    (X ++ Y.take n).take n = (X ++ Y).take n := by
  rw [List.take_append_eq_append_take, List.take_append_eq_append_take,
    List.take_take]
  have h : min (n - X.length) n = n - X.length := by omega
  rw [h]

theorem takeLast_append (n : Nat) (L M : List α) :
    takeLast n (takeLast n L ++ M) = takeLast n (L ++ M) := by
  rw [takeLast_eq_rtake, takeLast_eq_rtake, takeLast_eq_rtake,
    List.rtake_eq_reverse_take_reverse, List.rtake_eq_reverse_take_reverse,
    List.rtake_eq_reverse_take_reverse]
  rw [List.reverse_append, List.reverse_reverse, List.reverse_append,
    take_append_take]

theorem dedupFirst_sublist : ∀ (l seen : List String),
    List.Sublist (dedupFirst seen l) l := by
  intro l
  induction l with
  | nil => intro seen; simp [dedupFirst]
  | cons x xs ih =>
      intro seen
      simp only [dedupFirst]
      split
      · exact List.Sublist.cons x (ih seen)
      · exact List.Sublist.cons₂ x (ih (x :: seen))

theorem dedupFirst_spec : ∀ (l seen : List String),
    (dedupFirst seen l).Nodup ∧ ∀ w ∈ dedupFirst seen l, w ∉ seen := by
  intro l
  induction l with
  | nil =>
      intro seen
      refine ⟨List.nodup_nil, ?_⟩
      intro w hw
      simp [dedupFirst] at hw
  | cons x xs ih =>
      intro seen
      simp only [dedupFirst]
      split
      · exact ih seen
      · next hx =>
          have hxs : x ∉ seen := fun hmem => hx (List.elem_iff.mpr hmem)
          obtain ⟨ihn, ihm⟩ := ih (x :: seen)
          refine ⟨?_, ?_⟩
          · rw [List.nodup_cons]
            exact ⟨fun hmem => (ihm x hmem) (List.mem_cons_self x seen), ihn⟩
          · intro w hw
            rcases List.mem_cons.mp hw with h | h
            · subst h; exact hxs
            · exact fun hws => (ihm w h) (List.mem_cons_of_mem x hws)

theorem addEntity_nodup {e : List String} (k : String) (h : e.Nodup) :
    (addEntity e k).Nodup := by
  unfold addEntity
  split
  · exact h
  · next hk =>
      have hkm : k ∉ e := fun hm => hk (List.elem_iff.mpr hm)
      rw [List.nodup_append]
      exact ⟨h, List.nodup_singleton k,
        fun a ha hb => hkm (by rwa [List.mem_singleton.mp hb] at ha)⟩

theorem foldl_addEntity_nodup : ∀ (ks e : List String), e.Nodup →
    (ks.foldl addEntity e).Nodup := by
  intro ks
  induction ks with
  | nil => intro e h; exact h
  | cons k ks ih => intro e h; exact ih _ (addEntity_nodup k h)

theorem updateContext_entities (conv : Conversation) (content : String)
    (role : Role) :
    (updateContext conv content role).context.entities
      = takeLast 20
          ((extractKeywords content).foldl addEntity conv.context.entities) := by
  simp only [updateContext]
  exact trim_eq_takeLast 20 _

theorem updateContext_currentTopic (conv : Conversation) (content : String)
    (role : Role) :
    (updateContext conv content role).context.currentTopic
      = if role = Role.user then (extractKeywords content).head?
        else conv.context.currentTopic := by
  simp only [updateContext, identifyTopic]

theorem updateContext_messages (conv : Conversation) (content : String)
    (role : Role) :
    (updateContext conv content role).messages = conv.messages := rfl

theorem takeLast_nodup {l : List String} (n : Nat) (h : l.Nodup) :
    (takeLast n l).Nodup :=
  h.sublist (List.drop_sublist _ l)

theorem updateContext_entities_ok {conv : Conversation} (content : String)
    (role : Role) (h : conv.context.entities.Nodup) :
    (updateContext conv content role).context.entities.Nodup
      ∧ (updateContext conv content role).context.entities.length ≤ 20 := by
  rw [updateContext_entities]
  refine ⟨takeLast_nodup 20 (foldl_addEntity_nodup _ _ h), ?_⟩
  rw [takeLast_length]
  omega

theorem sliceNeg_of_pos {n : Nat} {l : List α} (h : 1 ≤ n) :
    sliceNeg l n = takeLast n l := by
  unfold sliceNeg takeLast
  rw [if_neg (by omega)]

theorem sliceNeg_length_zero_iff (l : List α) (n : Nat) :
    (sliceNeg l n).length = 0 ↔ l.length = 0 := by
  unfold sliceNeg
  split
  · exact Iff.rfl
  · rw [List.length_drop]; omega

theorem foldl_line_length (recent : List Message) : ∀ (acc : String),
    acc.length ≤
      (recent.foldl
        (fun acc m => acc ++ roleLabel m.role ++ ": " ++ m.content ++ "\n")
        acc).length := by
  induction recent with
  | nil => intro acc; exact le_refl _
  | cons m ms ih =>
      intro acc
      refine le_trans ?_ (ih _)
      simp only [String.length_append]
      omega

theorem renderBlock_length_pos (recent : List Message) (conv : Conversation) :
    0 < (renderBlock recent conv).length := by
  have h1 := foldl_line_length recent "\n\nConversation History:\n"
  have h0 : (0 : Nat) < ("\n\nConversation History:\n" : String).length := by
    decide
  simp only [renderBlock]
  rcases htop : conv.context.currentTopic with _ | t <;>
    simp only [htop] <;> split <;>
    (try simp only [String.length_append]) <;> omega

theorem renderBlock_ne_empty (recent : List Message) (conv : Conversation) :
    renderBlock recent conv ≠ "" := by
  intro h
  have := renderBlock_length_pos recent conv
  rw [h] at this
  exact absurd this (by decide)

theorem addMessage_store_eq (store : Store) (cid : String) (role : Role)
    (content : String) (md : Option Metadata) (msgId : String) (now : Int) :
    (addMessage store cid role content md msgId now).2 cid
      = some (updateContext
          { (getConversation store cid now).1 with
            messages := takeLast (MAX_HISTORY * 2)
              ((getConversation store cid now).1.messages
                ++ [{ id := msgId, role := role, content := content,
                      timestamp := now, metadata := md }]),
            updatedAt := now }
          content role) := by
  simp only [addMessage]
  rw [store_insert_self, trim_eq_takeLast]

theorem getConversation_snd_other (store : Store) (cid i : String)
    (now : Int) (h : i ≠ cid) :
    (getConversation store cid now).2 i = store i := by
  unfold getConversation
  cases store cid with
  | some c => rfl
  | none => exact store_insert_ne _ _ _ _ h

theorem addMessage_store_other (store : Store) (cid i : String) (role : Role)
    (content : String) (md : Option Metadata) (msgId : String) (now : Int)
    (h : i ≠ cid) :
    (addMessage store cid role content md msgId now).2 i = store i := by
  simp only [addMessage]
  rw [store_insert_ne _ _ _ _ h]
  exact getConversation_snd_other store cid i now h

theorem runAdds_invariant :
    ∀ (calls : List AddCall) (store : Store) (cid : String)
      (L : List Message) (c : Conversation),
      store cid = some c → c.messages = takeLast 20 L →
      ∃ c', runAdds cid store calls cid = some c'
        ∧ c'.messages = takeLast 20 (L ++ calls.map mkMessage) := by
  intro calls
  induction calls with
  | nil =>
      intro store cid L c hc hm
      exact ⟨c, hc, by simpa using hm⟩
  | cons a rest ih =>
      intro store cid L c hc hm
      have hstep := addMessage_store_eq store cid a.role a.content a.metadata
        a.msgId a.now
      rw [getConversation_of_some a.now hc] at hstep
      have hmsgs :
          (updateContext
            { c with
              messages := takeLast (MAX_HISTORY * 2)
                (c.messages ++ [mkMessage a]),
              updatedAt := a.now } a.content a.role).messages
            = takeLast 20 (L ++ [mkMessage a]) := by
        rw [updateContext_messages]
        show takeLast 20 (c.messages ++ [mkMessage a]) = _
        rw [hm, takeLast_append]
      obtain ⟨c', hc', hm'⟩ := ih _ cid (L ++ [mkMessage a]) _ hstep hmsgs
      refine ⟨c', ?_, ?_⟩
      · simpa [runAdds] using hc'
      · rw [hm']
        simp

theorem getContextForAI_snd (store : Store) (cid : String) (n : Nat)
    (now : Int) :
    (getContextForAI store cid n now).2 = (getConversation store cid now).2
    := by
  simp only [getContextForAI]
  split <;> rfl

theorem enhanceQuery_snd (store : Store) (cid q : String) (now : Int) :
    (enhanceQueryWithContext store cid q now).2
      = (getConversation store cid now).2 := by
  simp only [enhanceQueryWithContext]
  split <;> rfl

theorem getConversation_fst_ok {store : Store} (cid : String) (now : Int)
    (h : EntitiesOK store) :
    ((getConversation store cid now).1).context.entities.Nodup
      ∧ ((getConversation store cid now).1).context.entities.length ≤ 20 := by
  unfold getConversation
  cases hc : store cid with
  | some c => exact h cid c hc
  | none => exact ⟨List.nodup_nil, by simp [createConversation]⟩

theorem EntitiesOK_insert {store : Store} {cid : String} {conv : Conversation}
    (h : EntitiesOK store) (hn : conv.context.entities.Nodup)
    (hl : conv.context.entities.length ≤ 20) :
    EntitiesOK (store.insert cid conv) := by
  intro i c hi
  by_cases hic : i = cid
  · subst hic
    rw [store_insert_self] at hi
    obtain rfl : conv = c := by simpa using hi
    exact ⟨hn, hl⟩
  · rw [store_insert_ne _ _ _ _ hic] at hi
    exact h i c hi

theorem EntitiesOK_getConversation_snd {store : Store} (cid : String)
    (now : Int) (h : EntitiesOK store) :
    EntitiesOK ((getConversation store cid now).2) := by
  unfold getConversation
  cases hc : store cid with
  | some c => exact h
  | none => exact EntitiesOK_insert h List.nodup_nil (by simp [createConversation])

theorem applyOp_entities {store : Store} (op : Op) (h : EntitiesOK store) :
    EntitiesOK (applyOp store op) := by
  cases op with
  | addMsg cid role content md msgId now =>
      simp only [applyOp]
      intro i c hi
      by_cases hic : i = cid
      · subst hic
        rw [addMessage_store_eq] at hi
        have hc := Option.some.inj hi
        subst hc
        exact updateContext_entities_ok content role
          (getConversation_fst_ok i now h).1
      · rw [addMessage_store_other _ _ _ _ _ _ _ _ hic] at hi
        exact h i c hi
  | getConv cid now =>
      simp only [applyOp]
      exact EntitiesOK_getConversation_snd cid now h
  | getCtx cid n now =>
      simp only [applyOp]
      rw [getContextForAI_snd]
      exact EntitiesOK_getConversation_snd cid now h
  | enhance cid q now =>
      simp only [applyOp]
      rw [enhanceQuery_snd]
      exact EntitiesOK_getConversation_snd cid now h
  | isFollowUp cid q => exact h
  | clearOld now maxAge =>
      simp only [applyOp]
      intro i c hi
      unfold clearOldConversations at hi
      cases hc : store i with
      | none => simp [hc] at hi
      | some c0 =>
          simp only [hc] at hi
          split at hi
          · exact absurd hi (by simp)
          · obtain rfl : c0 = c := by simpa using hi
            exact h i c0 hc

/-! ### Claim theorems -/

/-- Claim C2: `isFollowUpQuestion` returns false when the conversation is
absent or has fewer than 2 stored messages, regardless of the query;
otherwise it returns true exactly when the lower-cased query contains one
of the fixed indicator phrases as a raw substring; and the result is
invariant under changing the letter case of the query (any two queries
with the same lower-casing agree). -/
theorem isFollowUpQuestion_spec :
    (∀ (store : Store) (cid query : String), store cid = none →
        isFollowUpQuestion store cid query = false)
    ∧ (∀ (store : Store) (cid query : String) (c : Conversation),
        store cid = some c → c.messages.length < 2 →
        isFollowUpQuestion store cid query = false)
    ∧ (∀ (store : Store) (cid query : String) (c : Conversation),
        store cid = some c → 2 ≤ c.messages.length →
        (isFollowUpQuestion store cid query = true ↔
          followUpIndicators.any
            (fun ind => containsSubstring ind.data (toLowerStr query).data)
            = true))
    ∧ (∀ (store : Store) (cid query query' : String),
        toLowerStr query = toLowerStr query' →
        isFollowUpQuestion store cid query
          = isFollowUpQuestion store cid query') := by
  refine ⟨?_, ?_, ?_, ?_⟩
  · intro store cid query h
    simp only [isFollowUpQuestion, h]
  · intro store cid query c h hlt
    simp only [isFollowUpQuestion, h]
    rw [if_pos hlt]
  · intro store cid query c h hge
    simp only [isFollowUpQuestion, h]
    rw [if_neg (by omega)]
  · intro store cid query query' h
    cases hc : store cid with
    | none => simp only [isFollowUpQuestion, hc]
    | some c =>
        simp only [isFollowUpQuestion, hc, h]

/-- Witness for C2 at concrete inputs: false on the empty store for any
query, and true (case-insensitively) on a two-message conversation. -/
theorem isFollowUpQuestion_spec_witness :
    isFollowUpQuestion emptyStore "c" "what about it" = false
    ∧ isFollowUpQuestion demoStore2 "c" "What ABOUT wildlife?" = true := by
  constructor
  · exact isFollowUpQuestion_spec.1 emptyStore "c" "what about it" rfl
  · exact (isFollowUpQuestion_spec.2.2.1 demoStore2 "c" "What ABOUT wildlife?"
      demoConv2 (by decide) (by decide)).mpr (by decide)

/-- Claim C8: `getConversation` is get-or-create: for a stored id it
returns the stored record and leaves the store unchanged; for an unseen
id it returns and stores a fresh record with that id, empty messages,
empty entities and no current topic. It is a total function (never fails,
never returns an absent signal). -/
theorem getConversation_get_or_create (store : Store) (cid : String)
    (now : Int) :
    (∀ c, store cid = some c → getConversation store cid now = (c, store))
    ∧ (store cid = none →
        (getConversation store cid now).1 = createConversation cid now
        ∧ (getConversation store cid now).2 cid
            = some (createConversation cid now)
        ∧ (createConversation cid now).id = cid
        ∧ (createConversation cid now).messages = []
        ∧ (createConversation cid now).context.entities = []
        ∧ (createConversation cid now).context.currentTopic = none) := by
  constructor
  · intro c h
    exact getConversation_of_some now h
  · intro h
    rw [getConversation_of_none now h]
    exact ⟨rfl, store_insert_self _ _ _, rfl, rfl, rfl, rfl⟩

/-- Witness for C8: looking up an unseen id on the empty store returns
and stores the fresh empty record. -/
theorem getConversation_get_or_create_witness :
    (getConversation emptyStore "a" 3).1 = createConversation "a" 3
    ∧ (getConversation emptyStore "a" 3).2 "a"
        = some (createConversation "a" 3) := by
  have h := (getConversation_get_or_create emptyStore "a" 3).2 rfl
  exact ⟨h.1, h.2.1⟩

/-- Claim C9: `clearOldConversations` keeps a conversation (unmodified)
exactly when its `updatedAt` is not older than `now - maxAge`, and the
default `maxAge` is 86,400,000 ms. -/
theorem clearOldConversations_spec (store : Store) (now maxAge : Int)
    (cid : String) :
    (∀ c, clearOldConversations store now maxAge cid = some c ↔
        (store cid = some c ∧ ¬ c.updatedAt < now - maxAge))
    ∧ defaultMaxAge = 86400000 := by
  constructor
  · intro c
    unfold clearOldConversations
    cases hc : store cid with
    | none => simp
    | some c0 =>
        dsimp only
        by_cases hage : now - c0.updatedAt > maxAge
        · rw [if_pos hage]
          constructor
          · intro h
            exact absurd h (by simp)
          · rintro ⟨heq, hkeep⟩
            obtain rfl : c0 = c := by simpa using heq
            exfalso
            omega
        · rw [if_neg hage]
          constructor
          · intro h
            obtain rfl : c0 = c := by simpa using h
            exact ⟨rfl, by omega⟩
          · rintro ⟨heq, -⟩
            obtain rfl : c0 = c := by simpa using heq
            rfl
  · decide

/-- Witness for C9: a conversation whose age does not exceed the cutoff
is kept unmodified. -/
theorem clearOldConversations_spec_witness :
    clearOldConversations demoStore1 100 1000 "c" = some demoConv1 :=
  ((clearOldConversations_spec demoStore1 100 1000 "c").1 demoConv1).mpr
    ⟨by decide, by decide⟩

/-- Claim C10: `isFollowUpQuestion` never modifies the store (its effect
is the identity, so an unseen id is not created), while
`enhanceQueryWithContext` and `getContextForAI`, called with an id absent
from the store, insert a fresh empty conversation for that id as a side
effect; with a stored id they leave the store unchanged. -/
theorem store_frame_effects :
    (∀ (store : Store) (cid query : String),
        applyOp store (Op.isFollowUp cid query) = store)
    ∧ (∀ (store : Store) (cid query : String) (now : Int),
        store cid = none →
        (enhanceQueryWithContext store cid query now).2 cid
          = some (createConversation cid now))
    ∧ (∀ (store : Store) (cid : String) (n : Nat) (now : Int),
        store cid = none →
        (getContextForAI store cid n now).2 cid
          = some (createConversation cid now))
    ∧ (∀ (store : Store) (cid query : String) (now : Int) (c : Conversation),
        store cid = some c →
        (enhanceQueryWithContext store cid query now).2 = store)
    ∧ (∀ (store : Store) (cid : String) (n : Nat) (now : Int)
        (c : Conversation), store cid = some c →
        (getContextForAI store cid n now).2 = store) := by
  refine ⟨?_, ?_, ?_, ?_, ?_⟩
  · intro store cid query
    rfl
  · intro store cid query now h
    simp only [enhanceQueryWithContext, getConversation_of_none now h]
    split
    · exact store_insert_self _ _ _
    · exact store_insert_self _ _ _
  · intro store cid n now h
    simp only [getContextForAI, getConversation_of_none now h]
    split
    · exact store_insert_self _ _ _
    · exact store_insert_self _ _ _
  · intro store cid query now c h
    simp only [enhanceQueryWithContext, getConversation_of_some now h]
    split
    · rfl
    · rfl
  · intro store cid n now c h
    simp only [getContextForAI, getConversation_of_some now h]
    split
    · rfl
    · rfl

/-- Witness for C10: enhancing a query under an unseen id stores the
fresh empty conversation for that id. -/
theorem store_frame_effects_witness :
    (enhanceQueryWithContext emptyStore "z" "hi" 7).2 "z"
      = some (createConversation "z" 7) :=
  store_frame_effects.2.1 emptyStore "z" "hi" 7 rfl

/-- Claim C1: `enhanceQueryWithContext` returns the query unchanged
whenever `isFollowUpQuestion` is false for that id and query; otherwise
(for a stored conversation) it returns the original query, followed by a
single space and the current topic when one is set, followed by a single
space and the last five entities joined by single spaces in stored order
when there are any. -/
theorem enhanceQueryWithContext_spec :
    (∀ (store : Store) (cid query : String) (now : Int),
        isFollowUpQuestion store cid query = false →
        (enhanceQueryWithContext store cid query now).1 = query)
    ∧ (∀ (store : Store) (cid query : String) (now : Int) (c : Conversation),
        store cid = some c →
        isFollowUpQuestion store cid query = true →
        (enhanceQueryWithContext store cid query now).1 =
          (match c.context.currentTopic with
           | some t => query ++ " " ++ t
           | none => query)
          ++ (if (takeLast 5 c.context.entities).length > 0 then
                " " ++ String.intercalate " " (takeLast 5 c.context.entities)
              else "")) := by
  constructor
  · intro store cid query now h
    cases hc : store cid with
    | some c =>
        simp [enhanceQueryWithContext, getConversation_of_some now hc, h]
    | none =>
        have hf : isFollowUpQuestion
            (store.insert cid (createConversation cid now)) cid query
            = false := by
          simp [isFollowUpQuestion, store_insert_self, createConversation]
        simp [enhanceQueryWithContext, getConversation_of_none now hc, hf]
  · intro store cid query now c hc hf
    simp only [enhanceQueryWithContext, getConversation_of_some now hc, hf,
      Bool.not_true, takeLast]
    cases htop : c.context.currentTopic <;>
      simp [String.append_assoc, String.append_empty] <;>
      by_cases hlen : 0 < c.context.entities.length <;>
      simp [hlen, String.append_assoc, String.append_empty]

/-- Witness for C1 at concrete inputs: identity on a non-follow-up, and
topic plus entities appended on a follow-up. -/
theorem enhanceQueryWithContext_spec_witness :
    (enhanceQueryWithContext emptyStore "c" "hello" 0).1 = "hello"
    ∧ (enhanceQueryWithContext demoStore2 "c" "What about wildlife?" 2).1
        = "What about wildlife? yellowstone yellowstone national park" := by
  constructor
  · exact enhanceQueryWithContext_spec.1 emptyStore "c" "hello" 0 (by decide)
  · rw [enhanceQueryWithContext_spec.2 demoStore2 "c" "What about wildlife?" 2
      demoConv2 (by decide) (by decide)]
    decide

/-- Claim C5: after an `addMessage` call, the stored conversation's
`currentTopic` is the first keyword extracted from the new content when
the role is `user` (and so is unset when no keyword survives), and is the
previous conversation's topic unchanged for any other role. -/
theorem addMessage_currentTopic (store : Store) (cid : String) (role : Role)
    (content : String) (md : Option Metadata) (msgId : String) (now : Int) :
    ((addMessage store cid role content md msgId now).2 cid).map
        (fun c => c.context.currentTopic)
      = some (if role = Role.user then (extractKeywords content).head?
              else ((getConversation store cid now).1).context.currentTopic)
      := by
  rw [addMessage_store_eq]
  show some ((updateContext _ content role).context.currentTopic) = _
  rw [updateContext_currentTopic]

/-- Claim C4: every extracted keyword has length above 3 and is not a
stop word; the keyword list is duplicate-free and is a sublist (so in
first-seen order) of the filtered token list of the lower-cased,
punctuation-stripped, whitespace-split text; and on the worked example
it contains the four content words and excludes the four stop/short
words. -/
theorem extractKeywords_spec :
    (∀ (text w : String), w ∈ extractKeywords text →
        3 < w.length ∧ w ∉ commonWords)
    ∧ (∀ text : String, (extractKeywords text).Nodup)
    ∧ (∀ text : String, List.Sublist (extractKeywords text)
        ((splitWords (String.mk ((toLowerStr text).data.map normalizeChar))).filter
          (fun w => w.length > 3 && !(commonWords.contains w))))
    ∧ ("difference" ∈ extractKeywords exampleQuery
        ∧ "supervised" ∈ extractKeywords exampleQuery
        ∧ "unsupervised" ∈ extractKeywords exampleQuery
        ∧ "learning" ∈ extractKeywords exampleQuery
        ∧ "what" ∉ extractKeywords exampleQuery
        ∧ "the" ∉ extractKeywords exampleQuery
        ∧ "and" ∉ extractKeywords exampleQuery
        ∧ "is" ∉ extractKeywords exampleQuery) := by
  refine ⟨?_, ?_, ?_, by decide⟩
  · intro text w h
    simp only [extractKeywords] at h
    have h2 := (dedupFirst_sublist _ []).subset h
    rw [List.mem_filter] at h2
    have hp := h2.2
    simp only [Bool.and_eq_true, decide_eq_true_eq, Bool.not_eq_true'] at hp
    refine ⟨by exact_mod_cast hp.1, fun hmem => ?_⟩
    have ht : commonWords.contains w = true := List.elem_iff.mpr hmem
    rw [hp.2] at ht
    exact absurd ht (by decide)
  · intro text
    simp only [extractKeywords]
    exact (dedupFirst_spec _ []).1
  · intro text
    simp only [extractKeywords]
    exact dedupFirst_sublist _ []

/-- Witness for C4: the keyword "difference" of the worked example is
longer than 3 characters and is not a stop word. -/
theorem extractKeywords_spec_witness :
    3 < ("difference" : String).length ∧ "difference" ∉ commonWords :=
  extractKeywords_spec.1 exampleQuery "difference" (by decide)

/-- Claim C3: after any non-empty sequence of `addMessage` calls on one
id starting from an absent id, the stored messages are exactly the last
20 appended messages in append order, so the length is `min(k, 20)`
after the k-th call; in particular, after the 25 one-at-a-time appends
`calls25`, the retained messages are appends #6 through #25. -/
theorem addMessage_history_window :
    (∀ (cid : String) (calls : List AddCall), calls ≠ [] →
        ∃ c, runAdds cid emptyStore calls cid = some c
          ∧ c.messages = takeLast 20 (calls.map mkMessage)
          ∧ c.messages.length = min calls.length 20)
    ∧ ((runAdds "c" emptyStore calls25 "c").map
          (fun c => c.messages.map Message.id)
        = some ["m6", "m7", "m8", "m9", "m10", "m11", "m12", "m13", "m14",
                "m15", "m16", "m17", "m18", "m19", "m20", "m21", "m22",
                "m23", "m24", "m25"]) := by
  constructor
  · intro cid calls hne
    cases calls with
    | nil => exact absurd rfl hne
    | cons a rest =>
        have h1 := addMessage_store_eq emptyStore cid a.role a.content
          a.metadata a.msgId a.now
        rw [getConversation_of_none a.now rfl] at h1
        simp only [createConversation, List.nil_append] at h1
        obtain ⟨c', hc', hm'⟩ := runAdds_invariant rest _ cid
          [mkMessage a] _ h1
          (by simp [updateContext_messages, mkMessage, MAX_HISTORY])
        refine ⟨c', ?_, ?_, ?_⟩
        · simpa [runAdds] using hc'
        · rw [hm']
          simp
        · rw [hm', takeLast_length]
          simp only [List.length_append, List.length_map, List.length_cons,
            List.length_nil]
          omega
  · decide

/-- Witness for C3: the 25 concrete appends of `calls25` retain the last
20 messages in order. -/
theorem addMessage_history_window_witness :
    ∃ c, runAdds "w" emptyStore calls25 "w" = some c
      ∧ c.messages = takeLast 20 (calls25.map mkMessage)
      ∧ c.messages.length = min calls25.length 20 :=
  addMessage_history_window.1 "w" calls25 (by decide)

/-- Claim C6: after every sequence of manager operations starting from a
fresh manager, every stored conversation's entity list is duplicate-free
and never exceeds 20 entries; and `updateContext` trims the merged entity
list to its 20 most recently inserted elements (oldest dropped first). -/
theorem entities_invariant :
    (∀ (ops : List Op) (cid : String) (c : Conversation),
        runOps ops cid = some c →
        c.context.entities.Nodup ∧ c.context.entities.length ≤ 20)
    ∧ (∀ (conv : Conversation) (content : String) (role : Role),
        (updateContext conv content role).context.entities
          = takeLast 20 ((extractKeywords content).foldl addEntity
              conv.context.entities)) := by
  constructor
  · have main : ∀ (ops : List Op) (store : Store), EntitiesOK store →
        EntitiesOK (ops.foldl applyOp store) := by
      intro ops
      induction ops with
      | nil => intro store h; exact h
      | cons op rest ih => intro store h; exact ih _ (applyOp_entities op h)
    intro ops cid c h
    exact main ops emptyStore (fun i c0 h0 => Option.noConfusion h0) cid c h
  · exact updateContext_entities

/-- Witness for C6: the conversation stored after `demoOps` has
duplicate-free entities of length at most 20. -/
theorem entities_invariant_witness :
    demoOpsResult.context.entities.Nodup
      ∧ demoOpsResult.context.entities.length ≤ 20 :=
  entities_invariant.1 demoOps "c" demoOpsResult (by decide)

/-- Claim C7 fails as stated: with `maxMessages = 0` and one stored
message, `getContextForAI` renders every stored message (JavaScript
`slice(-0)` is `slice(0)`), while the claimed block for the most recent
`0` messages has no message lines. -/
theorem getContextForAI_zero_counterexample :
    (getContextForAI demoStore1 "c" 0 0).1
      ≠ specContextBlock ((getConversation demoStore1 "c" 0).1) 0 := by
  decide

/-- Claim C7, amended: `getContextForAI` returns the empty string exactly
when the conversation has zero stored messages, and for `maxMessages ≥ 1`
it returns exactly the block described by the claim (header line, one
line per message of the most recent `maxMessages` messages in stored
order, optional topic line, optional comma-joined entities line). -/
theorem getContextForAI_spec_amended :
    (∀ (store : Store) (cid : String) (n : Nat) (now : Int),
        ((getContextForAI store cid n now).1 = ""
          ↔ ((getConversation store cid now).1).messages.length = 0))
    ∧ (∀ (store : Store) (cid : String) (n : Nat) (now : Int), 1 ≤ n →
        (getContextForAI store cid n now).1
          = specContextBlock ((getConversation store cid now).1) n) := by
  constructor
  · intro store cid n now
    simp only [getContextForAI]
    split
    · next hz =>
        simpa using (sliceNeg_length_zero_iff _ n).mp hz
    · next hz =>
        exact iff_of_false (renderBlock_ne_empty _ _)
          (fun hlen => hz ((sliceNeg_length_zero_iff _ n).mpr hlen))
  · intro store cid n now hn
    simp only [getContextForAI, specContextBlock, sliceNeg_of_pos hn]
    by_cases hz : ((getConversation store cid now).1).messages.length = 0
    · rw [if_pos (by rw [takeLast_length]; omega), if_pos hz]
    · rw [if_neg (by rw [takeLast_length]; omega), if_neg hz]

/-- Witness for the amended C7: on a one-message conversation with
`maxMessages = 5` the rendered block matches the specified block. -/
theorem getContextForAI_spec_amended_witness :
    (getContextForAI demoStore1 "c" 5 0).1
      = specContextBlock ((getConversation demoStore1 "c" 0).1) 5 :=
  getContextForAI_spec_amended.2 demoStore1 "c" 5 0 (by decide)

end ConvMgr
